import Mathlib

/-!
Verification of the territory-assignment staging workflow of `zip2rep`.

The embedding below follows the TypeScript sources:
* `src/client/src/services/assignment-service.ts` — the staging store
  (`addAssign`, `removeAssign`, `batchUpdate`, `validate`, the mocked
  directory lookups, and the copying read accessors);
* the Assign page (`src/client/src/lib/auth.ts`, second document) and
  `src/client/src/pages/reassign.tsx` — ZIP-range expansion into display
  rows, removal-by-match, and the reassignment ownership check.

JavaScript strings are modelled as Lean `String` (a list of characters);
JS numbers appearing here are non-negative integers and are modelled as
`Nat`, except where the code compares an index with `>= 0`, where `Int`
keeps the sign check meaningful.
-/

namespace Zip2Rep
/-- Numeric value of a digit character (character code minus 48). -/
def digitVal (c : Char) : Nat := c.toNat - 48

/-- The character for a decimal digit, as JS number-to-string renders it. -/
def digitChar (d : Nat) : Char := Char.ofNat (48 + d)

/-- Membership in the regex character class `\d` used by `/^\d{5}$/`. -/
def isDigitChar (c : Char) : Bool := decide (48 ≤ c.toNat) && decide (c.toNat ≤ 57)

/-- JS `parseInt` on an all-digit string, over the character list. -/
def parseDigits (l : List Char) : Nat := l.foldl (fun a c => a * 10 + digitVal c) 0

/-- Big-endian decimal digits of a number, with explicit recursion fuel so
that the definition is structural (the fuel is irrelevant once it exceeds
the number, see `natToDigitsAux_irrel`). -/
def natToDigitsAux : Nat → Nat → List Char
  | 0, _ => []
  | fuel + 1, n =>
    if n < 10 then [digitChar n]
    else natToDigitsAux fuel (n / 10) ++ [digitChar (n % 10)]

/-- JS `n.toString()` for a non-negative number: big-endian decimal digits,
no leading zeros. -/
def natToDigitsBE (n : Nat) : List Char := natToDigitsAux (n + 1) n

/-- JS `parseInt(s)` for the all-digit strings this code applies it to. -/
def parseIntStr (s : String) : Nat := parseDigits s.data

/-- JS `n.toString()` as a `String`. -/
def jsNatToString (n : Nat) : String := ⟨natToDigitsBE n⟩

/-- JS `String.prototype.padStart(k, c)` over the character list. -/
def padStartList (k : Nat) (c : Char) (l : List Char) : List Char :=
  List.replicate (k - l.length) c ++ l

/-- JS `s.padStart(k, c)`. -/
def padStart (k : Nat) (c : Char) (s : String) : String :=
  ⟨padStartList k c s.data⟩

/-- The form-level precondition `/^\d{5}$/.test(s)`: exactly five digits. -/
def isZip5 (s : String) : Bool := s.data.length == 5 && s.data.all isDigitChar

/-- Zero-padded 5-digit rendering of one ZIP number, the expression
`zip.toString().padStart(5, "0")` of both pages. -/
def renderZip (n : Nat) : String := padStart 5 '0' (jsNatToString n)

/-- The location selector of an operation: a county set or a ZIP range,
exactly one variant per operation. -/
inductive LocationSelector where
  | counties (cs : List String)
  | zipRange (zipFrom zipTo : String)

/-- Tokens of the loop `for (let zip = zipFrom; zip <= zipTo; zip++)` with
`zip.toString().padStart(5, "0")` at each step. -/
def zipRangeTokens (zipFrom zipTo : String) : List String :=
  (List.range' (parseIntStr zipFrom) (parseIntStr zipTo + 1 - parseIntStr zipFrom)).map renderZip

/-- Range expansion into one display-row location per resolved location:
county mode appends each selected county in order, ZIP mode runs the
inclusive padded range loop. -/
def expand : LocationSelector → List String
  | .counties cs => cs
  | .zipRange zipFrom zipTo => zipRangeTokens zipFrom zipTo

/-- Payload staged by `addAssign` and validated by `validate`. The optional
fields mirror `counties?`, `zipFrom?`, `zipTo?` of the TS interface. -/
structure ValidateAssignmentRequest where
  typeId : Nat
  repId : Nat
  counties : Option (List String)
  zipFrom : Option String
  zipTo : Option String
  deriving DecidableEq, Repr

/-- Payload staged by `addReassign`. -/
structure ReassignRequest where
  typeId : Nat
  fromRepId : Nat
  toRepId : Nat
  counties : Option (List String)
  zipFrom : Option String
  zipTo : Option String
  deriving DecidableEq, Repr

structure ValidateAssignmentResponse where
  valid : Bool
  errors : List String
  deriving DecidableEq, Repr

structure BatchAssignmentUpdateRequest where
  assigns : List ValidateAssignmentRequest
  reassigns : List ReassignRequest
  deriving DecidableEq, Repr

/-- The private staging fields `_assigns` and `_reassigns` of the service. -/
structure StagingState where
  assigns : List ValidateAssignmentRequest
  reassigns : List ReassignRequest
  deriving DecidableEq, Repr

/-- The method `addAssign`: push onto `_assigns`. -/
def addAssign (a : ValidateAssignmentRequest) (s : StagingState) : StagingState :=
  ⟨s.assigns ++ [a], s.reassigns⟩

/-- The method `addReassign`: push onto `_reassigns`. -/
def addReassign (r : ReassignRequest) (s : StagingState) : StagingState :=
  ⟨s.assigns, s.reassigns ++ [r]⟩

/-- The method `removeAssign(index)`: splice out one element when
`index >= 0 && index < this._assigns.length`, otherwise do nothing. The
index is an `Int` so that the `>= 0` guard of the source stays a real check. -/
def removeAssign (index : Int) (s : StagingState) : StagingState :=
  if 0 ≤ index ∧ index < (s.assigns.length : Int) then
    ⟨s.assigns.eraseIdx index.toNat, s.reassigns⟩
  else s

/-- The method `removeReassign(index)`. -/
def removeReassign (index : Int) (s : StagingState) : StagingState :=
  if 0 ≤ index ∧ index < (s.reassigns.length : Int) then
    ⟨s.assigns, s.reassigns.eraseIdx index.toNat⟩
  else s

/-- The method `clearAssigns`. -/
def clearAssigns (s : StagingState) : StagingState := ⟨[], s.reassigns⟩

/-- The method `clearReassigns`. -/
def clearReassigns (s : StagingState) : StagingState := ⟨s.assigns, []⟩

/-- The method `clearAll`. -/
def clearAll (s : StagingState) : StagingState := clearReassigns (clearAssigns s)

/-- The method `validate`: the mocked authority rejects exactly the requests
whose `zipFrom` or `zipTo` is the overlapping ZIP `"80019"`. -/
def validate (request : ValidateAssignmentRequest) : ValidateAssignmentResponse :=
  if request.zipFrom == some "80019" || request.zipTo == some "80019" then
    ⟨false, ["ZIP 80019 overlaps Rep 99"]⟩
  else
    ⟨true, []⟩

/-- The method `batchUpdate`: reject (leaving the staging fields untouched)
when some reassign has `fromRepId === 101 && toRepId === 201`; otherwise set
both staging fields to `[]` and report success. -/
def batchUpdate (request : BatchAssignmentUpdateRequest) (s : StagingState) :
    Bool × StagingState :=
  if request.reassigns.any (fun r => r.fromRepId == 101 && r.toRepId == 201) then
    (false, s)
  else
    (true, ⟨[], []⟩)

/-- The predicate of the `findIndex` in `handleRemoveAssignment`: same
`typeId` and `repId`, and the row's resolved location is a member of the
staged county set or equal to one of the staged ZIP bounds
(`a.counties?.includes(item.location) || a.zipFrom === item.location ||
a.zipTo === item.location`; an absent field compares unequal). -/
def matchesAssignRow (rowTypeId rowRepId : Nat) (location : String)
    (a : ValidateAssignmentRequest) : Bool :=
  a.typeId == rowTypeId && a.repId == rowRepId &&
    ((a.counties.getD []).contains location
      || a.zipFrom == some location || a.zipTo == some location)

/-- The handler `handleRemoveAssignment`: find the first staged assign
matching the removed display row and remove it by index; when `findIndex`
yields `-1`, leave the staging untouched. -/
def handleRemoveAssignment (rowTypeId rowRepId : Nat) (location : String)
    (s : StagingState) : StagingState :=
  match s.assigns.findIdx? (matchesAssignRow rowTypeId rowRepId location) with
  | some i => removeAssign (i : Int) s
  | none => s

/-- The predicate of the `findIndex` in `handleRemoveReassignment`. -/
def matchesReassignRow (rowTypeId rowFromRepId rowToRepId : Nat) (location : String)
    (r : ReassignRequest) : Bool :=
  r.typeId == rowTypeId && r.fromRepId == rowFromRepId && r.toRepId == rowToRepId &&
    ((r.counties.getD []).contains location
      || r.zipFrom == some location || r.zipTo == some location)

/-- The handler `handleRemoveReassignment`. -/
def handleRemoveReassignment (rowTypeId rowFromRepId rowToRepId : Nat) (location : String)
    (s : StagingState) : StagingState :=
  match s.reassigns.findIdx? (matchesReassignRow rowTypeId rowFromRepId rowToRepId location) with
  | some i => removeReassign (i : Int) s
  | none => s

/-- One entry of the `currentTerritories` snapshot fetched for the selected
from-rep. -/
structure CurrentTerritory where
  zipCode : String
  countyName : String
  deriving DecidableEq, Repr

/-- The ZIPs of the inclusive range that are not in the snapshot: the
`invalidZips` array collected by the ownership loop of `Reassign.onSubmit`
(a ZIP is kept when `currentTerritories.some(t => t.zipCode === zipCode)`
fails). -/
def invalidZips (currentTerritories : List CurrentTerritory) (zipFrom zipTo : String) :
    List String :=
  (zipRangeTokens zipFrom zipTo).filter
    (fun zipCode => !(currentTerritories.any (fun t => t.zipCode == zipCode)))

/-- The `allZipsValid` flag of the same loop: no offending ZIP was found. -/
def allZipsValid (currentTerritories : List CurrentTerritory) (zipFrom zipTo : String) :
    Bool :=
  (invalidZips currentTerritories zipFrom zipTo).isEmpty

structure SalesRep where
  SalesRepId : Nat
  SalesRepNo : String
  SalesRepType : Nat
  Division : String
  deriving DecidableEq, Repr

/-- The mocked `getSalesReps(typeId)` table. -/
def getSalesReps (typeId : Nat) : List SalesRep :=
  match typeId with
  | 1 => [⟨101, "0123", 1, "C"⟩, ⟨102, "0347", 1, "C"⟩]
  | 2 => [⟨201, "2301", 2, "C"⟩, ⟨202, "2574", 2, "C"⟩]
  | 3 => [⟨301, "3120", 3, "C"⟩, ⟨302, "3462", 3, "C"⟩]
  | _ => []

/-- The `loadToSalesReps` effect of the Reassign page: reps of the selected
type, with the rep whose id renders to the selected `fromRepId` string
filtered out (`rep.SalesRepId.toString() !== watchFromRepId`). -/
def loadToSalesReps (typeId : Nat) (watchFromRepId : String) : List SalesRep :=
  (getSalesReps typeId).filter
    (fun rep => !(jsNatToString rep.SalesRepId == watchFromRepId))

structure CurrentAssignment where
  ZipCodeId : Nat
  ZipCode : String
  deriving DecidableEq, Repr

/-- The mocked `getCurrentAssignments(repId)` table. -/
def getCurrentAssignments (repId : Nat) : List CurrentAssignment :=
  match repId with
  | 101 => [⟨0, "80019"⟩, ⟨1, "80022"⟩, ⟨2, "80024"⟩]
  | 102 => [⟨3, "80030"⟩, ⟨4, "80031"⟩, ⟨10, "80301"⟩, ⟨11, "80302"⟩]
  | 201 => [⟨5, "80037"⟩, ⟨6, "80045"⟩, ⟨12, "80303"⟩]
  | _ => []

/-- Aliasing model for the copying read accessors. The getters `assigns`
and `reassigns` return `[...this._assigns]` — a fresh array whose cells hold
the same elements. To state that mutating the returned array cannot touch
the store, JS arrays are modelled as references into a heap of list cells:
`cells` maps a reference to its contents and `next` is the next fresh
reference, so distinct allocations never alias. -/
structure ArrayHeap (α : Type) where
  cells : Nat → List α
  next : Nat

/-- The spread `[...a]`: allocate a fresh array holding the same elements. -/
def spreadCopy {α : Type} (h : ArrayHeap α) (r : Nat) : Nat × ArrayHeap α :=
  (h.next, ⟨fun i => if i = h.next then h.cells r else h.cells i, h.next + 1⟩)

/-- Mutation of the array behind reference `r` (push, splice, overwrite:
any replacement of its contents). -/
def writeCell {α : Type} (h : ArrayHeap α) (r : Nat) (v : List α) : ArrayHeap α :=
  ⟨fun i => if i = r then v else h.cells i, h.next⟩

/-- The getter `get assigns() { return [...this._assigns]; }`, where
`storeRef` is the reference held by the private field. The getter
`reassigns` is the same function applied to the other field. -/
def assignsGetter {α : Type} (h : ArrayHeap α) (storeRef : Nat) : Nat × ArrayHeap α :=
  spreadCopy h storeRef

/-- The helper `getCountyForZip` of the Reassign page (mock mapping). -/
def getCountyForZip (zipCode : String) : String :=
  match zipCode with
  | "80019" => "Adams"
  | "80022" => "Adams"
  | "80024" => "Adams"
  | "80030" => "Adams"
  | "80031" => "Adams"
  | "80301" => "Boulder"
  | "80302" => "Boulder"
  | "80303" => "Boulder"
  | "80037" => "Adams"
  | "80045" => "Adams"
  | _ => "Unknown"

/-- The `loadCurrentTerritories` effect: the snapshot fetched for a rep,
transformed to display territories. -/
def loadCurrentTerritories (repId : Nat) : List CurrentTerritory :=
  (getCurrentAssignments repId).map (fun a => ⟨a.ZipCode, getCountyForZip a.ZipCode⟩)

/-! ### Lemmas and claim theorems -/

theorem natToDigitsAux_irrel (f₁ : Nat) : ∀ (f₂ n : Nat), n < f₁ → n < f₂ →
    natToDigitsAux f₁ n = natToDigitsAux f₂ n := by
  induction f₁ with
  | zero => intro f₂ n h₁ _; omega
  | succ f₁ ih =>
    intro f₂ n h₁ h₂
    cases f₂ with
    | zero => omega
    | succ f₂ =>
      simp only [natToDigitsAux]
      by_cases h : n < 10
      · simp [h]
      · simp only [if_neg h]
        have hd : n / 10 < n := Nat.div_lt_self (by omega) (by omega)
        rw [ih f₂ (n / 10) (by omega) (by omega)]

/-- The recursion equation of `natToDigitsBE`, fuel eliminated. -/
theorem natToDigitsBE_eq (n : Nat) :
    natToDigitsBE n =
      if n < 10 then [digitChar n]
      else natToDigitsBE (n / 10) ++ [digitChar (n % 10)] := by
  unfold natToDigitsBE
  conv_lhs => rw [natToDigitsAux]
  by_cases h : n < 10
  · simp [h]
  · simp only [if_neg h]
    have hd : n / 10 < n := Nat.div_lt_self (by omega) (by omega)
    rw [natToDigitsAux_irrel n (n / 10 + 1) (n / 10) (by omega) (by omega)]

theorem digitChar_toNat {d : Nat} (h : d < 10) : (digitChar d).toNat = 48 + d := by
  interval_cases d <;> decide

theorem digitVal_digitChar {d : Nat} (h : d < 10) : digitVal (digitChar d) = d := by
  simp [digitVal, digitChar_toNat h]

theorem isDigitChar_digitChar {d : Nat} (h : d < 10) : isDigitChar (digitChar d) = true := by
  simp [isDigitChar, digitChar_toNat h]; omega

theorem isDigitChar_bounds {c : Char} (h : isDigitChar c = true) :
    48 ≤ c.toNat ∧ c.toNat ≤ 57 := by
  simpa [isDigitChar] using h

theorem digitVal_lt_ten {c : Char} (h : isDigitChar c = true) : digitVal c < 10 := by
  have := isDigitChar_bounds h
  simp only [digitVal]; omega

theorem digitChar_digitVal {c : Char} (h : isDigitChar c = true) :
    digitChar (digitVal c) = c := by
  have hb := isDigitChar_bounds h
  have : 48 + (c.toNat - 48) = c.toNat := by omega
  rw [digitChar, digitVal, this, Char.ofNat_toNat]

theorem parseDigits_nil : parseDigits [] = 0 := rfl

theorem parseDigits_singleton (c : Char) : parseDigits [c] = digitVal c := by
  simp [parseDigits]

theorem parseDigits_foldl_shift (l : List Char) : ∀ a : Nat,
    l.foldl (fun x c => x * 10 + digitVal c) a = a * 10 ^ l.length + parseDigits l := by
  induction l with
  | nil => intro a; simp [parseDigits]
  | cons c l ih =>
    intro a
    simp only [List.foldl_cons, List.length_cons]
    rw [ih (a * 10 + digitVal c), show parseDigits (c :: l) = (0 * 10 + digitVal c) * 10 ^ l.length + parseDigits l from by
      simpa only [List.foldl_cons] using ih (0 * 10 + digitVal c)]
    ring

theorem parseDigits_cons (c : Char) (l : List Char) :
    parseDigits (c :: l) = digitVal c * 10 ^ l.length + parseDigits l := by
  show List.foldl (fun x c => x * 10 + digitVal c) 0 (c :: l) = _
  rw [List.foldl_cons]
  simpa only [Nat.zero_mul, Nat.zero_add] using
    parseDigits_foldl_shift l (digitVal c)

theorem parseDigits_append_singleton (l : List Char) (c : Char) :
    parseDigits (l ++ [c]) = parseDigits l * 10 + digitVal c := by
  simp [parseDigits, List.foldl_append]

theorem parseDigits_replicate_zero (j : Nat) (l : List Char) :
    parseDigits (List.replicate j '0' ++ l) = parseDigits l := by
  induction j with
  | zero => simp
  | succ j ih =>
    have : List.replicate (j + 1) '0' ++ l = '0' :: (List.replicate j '0' ++ l) := by
      simp [List.replicate_succ]
    rw [this, parseDigits, List.foldl_cons]
    have h0 : (0 * 10 + digitVal '0' : Nat) = 0 := by decide
    rw [h0]
    exact ih

theorem parseDigits_lt (l : List Char) (h : ∀ c ∈ l, isDigitChar c = true) :
    parseDigits l < 10 ^ l.length := by
  induction l with
  | nil => simp [parseDigits]
  | cons c l ih =>
    rw [parseDigits_cons, List.length_cons, pow_succ]
    have hc : digitVal c < 10 := digitVal_lt_ten (h c (by simp))
    have hl : parseDigits l < 10 ^ l.length := ih fun x hx => h x (by simp [hx])
    have hq : 0 < 10 ^ l.length := Nat.pos_pow_of_pos _ (by omega)
    have h9 : digitVal c * 10 ^ l.length ≤ 9 * 10 ^ l.length :=
      Nat.mul_le_mul_right _ (by omega)
    have : (10 : Nat) ^ l.length * 10 = 10 * 10 ^ l.length := by ring
    omega

theorem parseDigits_natToDigitsBE (n : Nat) : parseDigits (natToDigitsBE n) = n := by
  induction n using Nat.strong_induction_on with
  | _ n ih =>
    rw [natToDigitsBE_eq]
    by_cases h : n < 10
    · simp [h, parseDigits_singleton, digitVal_digitChar h]
    · simp only [if_neg h]
      rw [parseDigits_append_singleton, ih (n / 10) (Nat.div_lt_self (by omega) (by omega)),
        digitVal_digitChar (Nat.mod_lt _ (by omega))]
      omega

theorem natToDigitsBE_length_le : ∀ (n k : Nat), 1 ≤ k → n < 10 ^ k →
    (natToDigitsBE n).length ≤ k := by
  intro n
  induction n using Nat.strong_induction_on with
  | _ n ih =>
    intro k hk hn
    rw [natToDigitsBE_eq]
    by_cases h : n < 10
    · simp [h]; omega
    · simp only [if_neg h, List.length_append, List.length_cons, List.length_nil]
      have hk2 : 2 ≤ k := by
        by_contra hc
        have : k = 1 := by omega
        subst this
        simp [pow_one] at hn
        omega
      have hd : n / 10 < n := Nat.div_lt_self (by omega) (by omega)
      have hdk : n / 10 < 10 ^ (k - 1) := by
        have h10 : (0 : Nat) < 10 := by omega
        rw [Nat.div_lt_iff_lt_mul h10]
        have : (10 : Nat) ^ (k - 1) * 10 = 10 ^ k := by
          rw [← pow_succ]
          congr 1
          omega
        omega
      have := ih (n / 10) hd (k - 1) (by omega) hdk
      omega

theorem natToDigitsBE_all_digits : ∀ (n : Nat), ∀ c ∈ natToDigitsBE n, isDigitChar c = true := by
  intro n
  induction n using Nat.strong_induction_on with
  | _ n ih =>
    intro c hc
    rw [natToDigitsBE_eq] at hc
    by_cases h : n < 10
    · simp [h] at hc
      subst hc
      exact isDigitChar_digitChar h
    · simp only [if_neg h, List.mem_append, List.mem_singleton] at hc
      rcases hc with hc | hc
      · exact ih (n / 10) (Nat.div_lt_self (by omega) (by omega)) c hc
      · subst hc
        exact isDigitChar_digitChar (Nat.mod_lt _ (by omega))

/-- Parsing a nonempty all-digit character list and re-rendering it with
left zero-padding to its own length reproduces the list. -/
theorem padStartList_roundtrip : ∀ (k : Nat) (l : List Char), l.length = k + 1 →
    (∀ c ∈ l, isDigitChar c = true) →
    padStartList (k + 1) '0' (natToDigitsBE (parseDigits l)) = l := by
  intro k
  induction k with
  | zero =>
    intro l hlen hdig
    obtain ⟨c, rfl⟩ := List.length_eq_one.mp hlen
    have hc : isDigitChar c = true := hdig c (by simp)
    have hv : digitVal c < 10 := digitVal_lt_ten hc
    rw [parseDigits_singleton, natToDigitsBE_eq, if_pos hv, digitChar_digitVal hc]
    simp [padStartList]
  | succ k ih =>
    intro l hlen hdig
    have hne : l ≠ [] := by intro h; subst h; simp at hlen
    obtain ⟨t, e, rfl⟩ : ∃ t e, l = t ++ [e] := ⟨l.dropLast, l.getLast hne, (List.dropLast_append_getLast hne).symm⟩
    have htlen : t.length = k + 1 := by
      have := hlen
      simp only [List.length_append, List.length_cons, List.length_nil] at this
      omega
    have htdig : ∀ c ∈ t, isDigitChar c = true := fun c hc => hdig c (by simp [hc])
    have hedig : isDigitChar e = true := hdig e (by simp)
    have hd : digitVal e < 10 := digitVal_lt_ten hedig
    rw [parseDigits_append_singleton]
    by_cases hm : parseDigits t = 0
    · have ht0 : t = List.replicate (k + 1) '0' := by
        have := ih t htlen htdig
        rw [hm] at this
        have h0 : natToDigitsBE 0 = ['0'] := by rw [natToDigitsBE_eq]; decide
        rw [h0] at this
        simp only [padStartList, List.length_cons, List.length_nil] at this
        rw [← this, ← List.replicate_succ']
        congr 1
      rw [hm, Nat.zero_mul, Nat.zero_add, natToDigitsBE_eq, if_pos hd,
        digitChar_digitVal hedig]
      simp only [padStartList, List.length_cons, List.length_nil]
      rw [ht0]
      have harith : k + 1 + 1 - (0 + 1) = k + 1 := by omega
      rw [harith]
    · have hge : ¬ parseDigits t * 10 + digitVal e < 10 := by
        have : 1 ≤ parseDigits t := by omega
        omega
      rw [natToDigitsBE_eq, if_neg hge]
      have hdiv : (parseDigits t * 10 + digitVal e) / 10 = parseDigits t := by omega
      have hmod : (parseDigits t * 10 + digitVal e) % 10 = digitVal e := by omega
      rw [hdiv, hmod, digitChar_digitVal hedig]
      have hih := ih t htlen htdig
      simp only [padStartList] at hih ⊢
      rw [List.length_append, List.length_cons, List.length_nil]
      have harith : k + 1 + 1 - ((natToDigitsBE (parseDigits t)).length + 1)
          = k + 1 - (natToDigitsBE (parseDigits t)).length := by omega
      rw [harith, ← List.append_assoc, hih]

theorem renderZip_parseIntStr {s : String} (h : isZip5 s = true) :
    renderZip (parseIntStr s) = s := by
  have hb : s.data.length = 5 ∧ ∀ c ∈ s.data, isDigitChar c = true := by
    simpa [isZip5, List.all_eq_true] using h
  show padStart 5 '0' ⟨natToDigitsBE (parseDigits s.data)⟩ = s
  have : padStartList 5 '0' (natToDigitsBE (parseDigits s.data)) = s.data :=
    padStartList_roundtrip 4 s.data (by omega) hb.2
  calc padStart 5 '0' ⟨natToDigitsBE (parseDigits s.data)⟩
      = ⟨padStartList 5 '0' (natToDigitsBE (parseDigits s.data))⟩ := rfl
    _ = ⟨s.data⟩ := by rw [this]
    _ = s := rfl

theorem parseIntStr_renderZip (n : Nat) : parseIntStr (renderZip n) = n := by
  show parseDigits (padStartList 5 '0' (natToDigitsBE n)) = n
  rw [padStartList, parseDigits_replicate_zero, parseDigits_natToDigitsBE]

theorem renderZip_length {n : Nat} (h : n < 100000) : (renderZip n).data.length = 5 := by
  have hlen : (natToDigitsBE n).length ≤ 5 := natToDigitsBE_length_le n 5 (by omega) (by norm_num; omega)
  show (padStartList 5 '0' (natToDigitsBE n)).length = 5
  simp only [padStartList, List.length_append, List.length_replicate]
  omega

theorem renderZip_digits (n : Nat) : ∀ c ∈ (renderZip n).data, isDigitChar c = true := by
  intro c hc
  have : c ∈ padStartList 5 '0' (natToDigitsBE n) := hc
  simp only [padStartList, List.mem_append, List.mem_replicate] at this
  rcases this with ⟨_, rfl⟩ | hm
  · decide
  · exact natToDigitsBE_all_digits n c hm

theorem isZip5_renderZip {n : Nat} (h : n < 100000) : isZip5 (renderZip n) = true := by
  simp [isZip5, renderZip_length h, List.all_eq_true]
  exact fun c hc => renderZip_digits n c hc

theorem parseIntStr_lt {s : String} (h : isZip5 s = true) : parseIntStr s < 100000 := by
  have hb : s.data.length = 5 ∧ ∀ c ∈ s.data, isDigitChar c = true := by
    simpa [isZip5, List.all_eq_true] using h
  have := parseDigits_lt s.data hb.2
  rw [hb.1] at this
  simpa using this

theorem range'_append_last : ∀ (m a : Nat), List.range' a (m + 1) = List.range' a m ++ [a + m] := by
  intro m
  induction m with
  | zero => intro a; simp [List.range'_succ]
  | succ m ihm =>
    intro a
    rw [List.range'_succ, ihm (a + 1), List.range'_succ a m]
    simp only [List.cons_append]
    have : a + 1 + m = a + (m + 1) := by omega
    rw [this]

/-- C1. Batch confirmation is all-or-nothing with respect to the staging
store: whenever `batchUpdate` reports success both staged sequences are
empty afterwards; whenever it reports failure the state is exactly what it
was before the call; and any request containing a reassign with
`fromRepId = 101` and `toRepId = 201` is reported as failure. -/
theorem batchUpdate_all_or_nothing (request : BatchAssignmentUpdateRequest) (s : StagingState) :
    ((batchUpdate request s).1 = true →
      (batchUpdate request s).2.assigns = [] ∧ (batchUpdate request s).2.reassigns = [])
    ∧ ((batchUpdate request s).1 = false → (batchUpdate request s).2 = s)
    ∧ (∀ r ∈ request.reassigns, r.fromRepId = 101 → r.toRepId = 201 →
        (batchUpdate request s).1 = false) := by
  unfold batchUpdate
  by_cases hbad : request.reassigns.any (fun r => r.fromRepId == 101 && r.toRepId == 201) = true
  · rw [if_pos hbad]
    refine ⟨fun h => by simp at h, fun _ => rfl, fun r hr h1 h2 => rfl⟩
  · rw [if_neg hbad]
    refine ⟨fun _ => ⟨rfl, rfl⟩, fun h => by simp at h, fun r hr h1 h2 => ?_⟩
    exfalso
    apply hbad
    rw [List.any_eq_true]
    exact ⟨r, hr, by simp [h1, h2]⟩

/-- C1 witness at a concrete rejected request and a populated staging set. -/
theorem batchUpdate_all_or_nothing_witness :
    (batchUpdate ⟨[], [⟨1, 101, 201, none, some "80019", some "80022"⟩]⟩
        ⟨[⟨1, 101, none, some "80010", some "80010"⟩], []⟩).2
      = ⟨[⟨1, 101, none, some "80010", some "80010"⟩], []⟩ :=
  (batchUpdate_all_or_nothing ⟨[], [⟨1, 101, 201, none, some "80019", some "80022"⟩]⟩
    ⟨[⟨1, 101, none, some "80010", some "80010"⟩], []⟩).2.1 (by decide)

/-- C5. Confirming an empty request always succeeds and leaves both staged
sequences empty, from any prior state of the staging store. -/
theorem batchUpdate_empty_request (s : StagingState) :
    (batchUpdate ⟨[], []⟩ s).1 = true
    ∧ (batchUpdate ⟨[], []⟩ s).2.assigns = []
    ∧ (batchUpdate ⟨[], []⟩ s).2.reassigns = [] := by
  refine ⟨?_, ?_, ?_⟩ <;> rfl

/-- C6. Removal by index: an out-of-bounds index (negative or at least the
length) leaves the whole state unchanged and raises no error, and an
in-bounds index removes exactly the element at that position of the
respective sequence, leaving the other sequence unchanged. -/
theorem remove_by_index_spec (index : Int) (s : StagingState) :
    ((index < 0 ∨ (s.assigns.length : Int) ≤ index) → removeAssign index s = s)
    ∧ ((index < 0 ∨ (s.reassigns.length : Int) ≤ index) → removeReassign index s = s)
    ∧ (0 ≤ index → index < (s.assigns.length : Int) →
        (removeAssign index s).assigns = s.assigns.eraseIdx index.toNat
        ∧ (removeAssign index s).reassigns = s.reassigns)
    ∧ (0 ≤ index → index < (s.reassigns.length : Int) →
        (removeReassign index s).reassigns = s.reassigns.eraseIdx index.toNat
        ∧ (removeReassign index s).assigns = s.assigns) := by
  refine ⟨?_, ?_, ?_, ?_⟩
  · intro hoob
    unfold removeAssign
    rw [if_neg]
    omega
  · intro hoob
    unfold removeReassign
    rw [if_neg]
    omega
  · intro h0 hlt
    unfold removeAssign
    rw [if_pos ⟨h0, hlt⟩]
    exact ⟨rfl, rfl⟩
  · intro h0 hlt
    unfold removeReassign
    rw [if_pos ⟨h0, hlt⟩]
    exact ⟨rfl, rfl⟩

/-- C6 witness: index 5 is out of bounds for a single-element staging set,
and index 0 removes its only element. -/
theorem remove_by_index_spec_witness :
    removeAssign 5 ⟨[⟨1, 101, none, some "80010", some "80010"⟩], []⟩
        = ⟨[⟨1, 101, none, some "80010", some "80010"⟩], []⟩
    ∧ (removeAssign 0 ⟨[⟨1, 101, none, some "80010", some "80010"⟩], []⟩).assigns = [] :=
  ⟨(remove_by_index_spec 5 ⟨[⟨1, 101, none, some "80010", some "80010"⟩], []⟩).1
      (by right; decide),
   ((remove_by_index_spec 0 ⟨[⟨1, 101, none, some "80010", some "80010"⟩], []⟩).2.2.1
      (by decide) (by decide)).1⟩

/-- C7. The read accessors return a defensive copy: the fresh array holds
exactly the store's elements, and overwriting the returned array (any
mutation of its contents) leaves the store's array unchanged. -/
theorem assignsGetter_defensive_copy {α : Type} (h : ArrayHeap α) (storeRef : Nat)
    (href : storeRef < h.next) :
    (assignsGetter h storeRef).2.cells (assignsGetter h storeRef).1 = h.cells storeRef
    ∧ ∀ v, (writeCell (assignsGetter h storeRef).2 (assignsGetter h storeRef).1 v).cells storeRef
        = h.cells storeRef := by
  have hne : storeRef ≠ h.next := by omega
  constructor
  · show (if h.next = h.next then h.cells storeRef else h.cells h.next) = h.cells storeRef
    rw [if_pos rfl]
  · intro v
    show (if storeRef = h.next then v
        else if storeRef = h.next then h.cells storeRef else h.cells storeRef)
      = h.cells storeRef
    rw [if_neg hne, if_neg hne]

/-- C7 witness: a one-cell heap holding one staged assign; overwriting the
copy with `[]` leaves the store's cell intact. -/
theorem assignsGetter_defensive_copy_witness :
    (writeCell
        (assignsGetter
          (⟨fun _ => [(⟨1, 101, none, some "80010", some "80010"⟩ : ValidateAssignmentRequest)], 1⟩
            : ArrayHeap ValidateAssignmentRequest) 0).2
        (assignsGetter
          (⟨fun _ => [(⟨1, 101, none, some "80010", some "80010"⟩ : ValidateAssignmentRequest)], 1⟩
            : ArrayHeap ValidateAssignmentRequest) 0).1 []).cells 0
      = [(⟨1, 101, none, some "80010", some "80010"⟩ : ValidateAssignmentRequest)] :=
  (assignsGetter_defensive_copy
    (⟨fun _ => [(⟨1, 101, none, some "80010", some "80010"⟩ : ValidateAssignmentRequest)], 1⟩
      : ArrayHeap ValidateAssignmentRequest) 0 (by decide)).2 []

/-- C8. County-mode expansion returns the input counties in selection
order, one token per county, so its length is the input list's length, and
for a duplicate-free selection (the UI's multi-select toggles membership)
that length is the cardinality of the selected set. -/
theorem expand_counties_spec (cs : List String) :
    expand (.counties cs) = cs
    ∧ (expand (.counties cs)).length = cs.length
    ∧ (cs.Nodup → (expand (.counties cs)).length = cs.toFinset.card) := by
  refine ⟨rfl, rfl, fun hnd => ?_⟩
  show cs.length = cs.toFinset.card
  exact (List.toFinset_card_of_nodup hnd).symm

/-- C8 witness at a concrete two-county selection. -/
theorem expand_counties_spec_witness :
    (expand (.counties ["Adams", "Boulder"])).length = (["Adams", "Boulder"] : List String).toFinset.card :=
  (expand_counties_spec ["Adams", "Boulder"]).2.2 (by decide)

/-- C9. The to-rep option list built by `loadToSalesReps` never contains
the selected from-rep: every offered rep renders to a different id string,
and its numeric id differs from the from-rep's id, so a reassignment staged
from these selections has `fromRepId ≠ toRepId`. -/
theorem loadToSalesReps_excludes_fromRep (typeId fromRepId : Nat) :
    ∀ rep ∈ loadToSalesReps typeId (jsNatToString fromRepId),
      jsNatToString rep.SalesRepId ≠ jsNatToString fromRepId ∧ rep.SalesRepId ≠ fromRepId := by
  intro rep hrep
  rw [loadToSalesReps, List.mem_filter] at hrep
  have hne : jsNatToString rep.SalesRepId ≠ jsNatToString fromRepId := by
    intro heq
    rw [heq] at hrep
    simp at hrep
  refine ⟨hne, fun heq => hne ?_⟩
  rw [heq]

/-- C9 witness: for type 1 and from-rep 101, the offered rep 102 is not
rep 101. -/
theorem loadToSalesReps_excludes_fromRep_witness :
    (⟨102, "0347", 1, "C"⟩ : SalesRep).SalesRepId ≠ 101 :=
  (loadToSalesReps_excludes_fromRep 1 101 ⟨102, "0347", 1, "C"⟩ (by decide)).2

theorem findIdx?_append_singleton {α : Type} (p : α → Bool) (op : α) :
    ∀ pre : List α, (∀ a ∈ pre, p a = false) → p op = true →
      (pre ++ [op]).findIdx? p = some pre.length := by
  intro pre
  induction pre with
  | nil =>
    intro _ hop
    simp [List.findIdx?_cons, hop]
  | cons a pre ih =>
    intro hpre hop
    rw [List.cons_append, List.findIdx?_cons, if_neg (by simp [hpre a (List.mem_cons_self a pre)]),
      List.findIdx?_succ, ih (fun x hx => hpre x (List.mem_cons_of_mem a hx)) hop]
    rfl

theorem eraseIdx_append_singleton {α : Type} (op : α) :
    ∀ pre : List α, (pre ++ [op]).eraseIdx pre.length = pre := by
  intro pre
  induction pre with
  | nil => rfl
  | cons a pre ih => simpa [List.eraseIdx] using ih

/-- C3 (amended). Removing a display row whose location is one of the staged
operation's counties or one of its two ZIP bounds removes that entire staged
operation: when no earlier staged assign matches the row, the store returns
to exactly its prior contents, so it no longer contains the operation. Rows
for the interior ZIPs of a staged range match no staged field and leave the
store unchanged (see the counterexample). -/
theorem handleRemoveAssignment_removes (op : ValidateAssignmentRequest) (location : String)
    (pre : List ValidateAssignmentRequest) (reas : List ReassignRequest)
    (hloc : location ∈ op.counties.getD [] ∨ op.zipFrom = some location ∨ op.zipTo = some location)
    (hpre : ∀ a ∈ pre, matchesAssignRow op.typeId op.repId location a = false) :
    handleRemoveAssignment op.typeId op.repId location (addAssign op ⟨pre, reas⟩) = ⟨pre, reas⟩
    ∧ (op ∉ pre →
        op ∉ (handleRemoveAssignment op.typeId op.repId location (addAssign op ⟨pre, reas⟩)).assigns) := by
  have hmatch : matchesAssignRow op.typeId op.repId location op = true := by
    rcases hloc with h | h | h
    · simp [matchesAssignRow, h]
    · simp [matchesAssignRow, h]
    · simp [matchesAssignRow, h]
  have hmain : handleRemoveAssignment op.typeId op.repId location (addAssign op ⟨pre, reas⟩)
      = ⟨pre, reas⟩ := by
    have hstep : handleRemoveAssignment op.typeId op.repId location ⟨pre ++ [op], reas⟩
        = removeAssign (pre.length : Int) ⟨pre ++ [op], reas⟩ := by
      unfold handleRemoveAssignment
      rw [show (⟨pre ++ [op], reas⟩ : StagingState).assigns = pre ++ [op] from rfl,
        findIdx?_append_singleton _ op pre hpre hmatch]
    show handleRemoveAssignment op.typeId op.repId location ⟨pre ++ [op], reas⟩ = ⟨pre, reas⟩
    rw [hstep]
    unfold removeAssign
    rw [if_pos]
    · congr 1
      rw [show ((pre.length : Int)).toNat = pre.length from rfl]
      exact eraseIdx_append_singleton op pre
    · constructor
      · exact Int.natCast_nonneg _
      · show (pre.length : Int) < (((pre ++ [op] : List ValidateAssignmentRequest)).length : Int)
        rw [List.length_append, List.length_cons, List.length_nil]
        omega
  refine ⟨hmain, fun hnot => ?_⟩
  rw [hmain]
  exact hnot

/-- C3 witness: one staged ZIP-range assign and the row for its lower bound;
removal empties the staging. -/
theorem handleRemoveAssignment_removes_witness :
    handleRemoveAssignment 1 101 "80010"
        (addAssign (⟨1, 101, none, some "80010", some "80012"⟩ : ValidateAssignmentRequest) ⟨[], []⟩)
      = ⟨[], []⟩ :=
  (handleRemoveAssignment_removes ⟨1, 101, none, some "80010", some "80012"⟩ "80010" [] []
    (Or.inr (Or.inl rfl)) (by simp)).1

/-- C3 counterexample: the row for "80011", an interior ZIP of the staged
range "80010"–"80012" (so a display row derived from the operation), matches
neither staged field; the removal leaves the staging unchanged and the
operation is still contained in `assigns`. -/
theorem handleRemoveAssignment_interior_zip_cex :
    "80011" ∈ expand (.zipRange "80010" "80012")
    ∧ handleRemoveAssignment 1 101 "80011"
        (addAssign (⟨1, 101, none, some "80010", some "80012"⟩ : ValidateAssignmentRequest) ⟨[], []⟩)
      = addAssign (⟨1, 101, none, some "80010", some "80012"⟩ : ValidateAssignmentRequest) ⟨[], []⟩
    ∧ (⟨1, 101, none, some "80010", some "80012"⟩ : ValidateAssignmentRequest)
        ∈ (handleRemoveAssignment 1 101 "80011"
            (addAssign (⟨1, 101, none, some "80010", some "80012"⟩ : ValidateAssignmentRequest)
              ⟨[], []⟩)).assigns := by
  refine ⟨by decide, by decide, by decide⟩

/-- C4 (amended). The ownership check requires every ZIP of the inclusive
range — not only the bounds — to belong to the from-rep's snapshot, and
collects every offending ZIP: with snapshot {"80019","80022"} for rep 101
the range "80019"–"80022" fails, reporting the unowned interior ZIPs
"80020" and "80021"; the single-ZIP range "80019"–"80019" passes; and the
range ending at "80024" fails with "80024" among the reported ZIPs (as it
also does against the service's actual snapshot for rep 101). -/
theorem ownership_check_spec :
    (∀ (terr : List CurrentTerritory) (zipFrom zipTo : String),
        allZipsValid terr zipFrom zipTo = true ↔
          ∀ z ∈ zipRangeTokens zipFrom zipTo, ∃ t ∈ terr, t.zipCode = z)
    ∧ (∀ (terr : List CurrentTerritory) (zipFrom zipTo z : String),
        z ∈ zipRangeTokens zipFrom zipTo → (∀ t ∈ terr, t.zipCode ≠ z) →
          z ∈ invalidZips terr zipFrom zipTo)
    ∧ invalidZips [⟨"80019", "Adams"⟩, ⟨"80022", "Adams"⟩] "80019" "80022" = ["80020", "80021"]
    ∧ allZipsValid [⟨"80019", "Adams"⟩, ⟨"80022", "Adams"⟩] "80019" "80019" = true
    ∧ "80024" ∈ invalidZips [⟨"80019", "Adams"⟩, ⟨"80022", "Adams"⟩] "80019" "80024"
    ∧ allZipsValid (loadCurrentTerritories 101) "80019" "80022" = false := by
  refine ⟨?_, ?_, by decide, by decide, by decide, by decide⟩
  · intro terr zipFrom zipTo
    rw [allZipsValid, invalidZips, List.isEmpty_iff, List.filter_eq_nil_iff]
    constructor
    · intro h z hz
      have := h z hz
      simp only [Bool.not_eq_true', Bool.not_eq_false] at this
      obtain ⟨t, ht, hbeq⟩ := List.any_eq_true.mp this
      exact ⟨t, ht, by simpa using hbeq⟩
    · intro h z hz
      obtain ⟨t, ht, heq⟩ := h z hz
      simp only [Bool.not_eq_true', Bool.not_eq_false]
      exact List.any_eq_true.mpr ⟨t, ht, by simp [heq]⟩
  · intro terr zipFrom zipTo z hz hno
    rw [invalidZips, List.mem_filter]
    refine ⟨hz, ?_⟩
    simp only [Bool.not_eq_true']
    rw [List.any_eq_false]
    intro t ht
    simpa using hno t ht

/-- C4 counterexample: against the snapshot {"80019","80022"} posited for
rep 101, the reassign range "80019"–"80022" does not pass the ownership
check (the interior ZIPs are unowned). -/
theorem ownership_check_endpoints_cex :
    allZipsValid [⟨"80019", "Adams"⟩, ⟨"80022", "Adams"⟩] "80019" "80022" = false := by
  decide

/-- C2. ZIP-mode expansion of a validated range `zipFrom ≤ zipTo` (two
five-digit numeric strings) yields exactly `zipTo - zipFrom + 1` tokens,
each itself a five-digit numeric string, strictly ascending in numeric
order, starting at `zipFrom` and ending at `zipTo`; equal bounds yield the
single-token sequence. -/
theorem expand_zipRange_spec (zipFrom zipTo : String)
    (h1 : isZip5 zipFrom = true) (h2 : isZip5 zipTo = true)
    (hle : parseIntStr zipFrom ≤ parseIntStr zipTo) :
    (expand (.zipRange zipFrom zipTo)).length = parseIntStr zipTo - parseIntStr zipFrom + 1
    ∧ (∀ s ∈ expand (.zipRange zipFrom zipTo), isZip5 s = true)
    ∧ (expand (.zipRange zipFrom zipTo)).Pairwise (fun a b => parseIntStr a < parseIntStr b)
    ∧ (expand (.zipRange zipFrom zipTo)).head? = some zipFrom
    ∧ (expand (.zipRange zipFrom zipTo)).getLast? = some zipTo
    ∧ (zipFrom = zipTo → expand (.zipRange zipFrom zipTo) = [zipFrom]) := by
  have hbound : parseIntStr zipTo < 100000 := parseIntStr_lt h2
  have hn : parseIntStr zipTo + 1 - parseIntStr zipFrom
      = (parseIntStr zipTo - parseIntStr zipFrom) + 1 := by omega
  refine ⟨?_, ?_, ?_, ?_, ?_, ?_⟩
  · show ((List.range' (parseIntStr zipFrom) (parseIntStr zipTo + 1 - parseIntStr zipFrom)).map
        renderZip).length = _
    rw [List.length_map, List.length_range']
    omega
  · intro s hs
    obtain ⟨m, hm, rfl⟩ := List.mem_map.mp hs
    rw [List.mem_range'] at hm
    obtain ⟨i, hi, rfl⟩ := hm
    exact isZip5_renderZip (by omega)
  · show ((List.range' (parseIntStr zipFrom) (parseIntStr zipTo + 1 - parseIntStr zipFrom)).map
        renderZip).Pairwise _
    rw [List.pairwise_map]
    refine (List.pairwise_lt_range' _ _).imp ?_
    intro x y hxy
    rwa [parseIntStr_renderZip, parseIntStr_renderZip]
  · show ((List.range' (parseIntStr zipFrom) (parseIntStr zipTo + 1 - parseIntStr zipFrom)).map
        renderZip).head? = _
    rw [hn, List.range'_succ, List.map_cons, List.head?_cons, renderZip_parseIntStr h1]
  · show ((List.range' (parseIntStr zipFrom) (parseIntStr zipTo + 1 - parseIntStr zipFrom)).map
        renderZip).getLast? = _
    rw [hn, range'_append_last, List.map_append, List.map_singleton, List.getLast?_concat]
    have : parseIntStr zipFrom + (parseIntStr zipTo - parseIntStr zipFrom) = parseIntStr zipTo := by
      omega
    rw [this, renderZip_parseIntStr h2]
  · intro heq
    subst heq
    show (List.range' (parseIntStr zipFrom) (parseIntStr zipFrom + 1 - parseIntStr zipFrom)).map
        renderZip = _
    have h1' : parseIntStr zipFrom + 1 - parseIntStr zipFrom = 1 := by omega
    rw [h1', List.range'_succ]
    show [renderZip (parseIntStr zipFrom)] = [zipFrom]
    rw [renderZip_parseIntStr h1]

/-- C2 witness: the range "80010"–"80012" expands to exactly three strictly
ascending tokens headed by "80010". -/
theorem expand_zipRange_spec_witness :
    (expand (.zipRange "80010" "80012")).length = parseIntStr "80012" - parseIntStr "80010" + 1
    ∧ (expand (.zipRange "80010" "80012")).head? = some "80010"
    ∧ (expand (.zipRange "80010" "80012")).getLast? = some "80012" :=
  ⟨(expand_zipRange_spec "80010" "80012" (by decide) (by decide) (by decide)).1,
   (expand_zipRange_spec "80010" "80012" (by decide) (by decide) (by decide)).2.2.2.1,
   (expand_zipRange_spec "80010" "80012" (by decide) (by decide) (by decide)).2.2.2.2.1⟩

/-- C10. A validation response is accepting exactly when its error list is
empty: the mocked authority returns `valid = true` with no errors, or
`valid = false` with one error string. -/
theorem validate_valid_iff_no_errors (request : ValidateAssignmentRequest) :
    (validate request).valid = true ↔ (validate request).errors = [] := by
  unfold validate
  split
  · simp
  · simp

end Zip2Rep
